import Mathlib

/-!
Shallow embedding of the lexical decision task web experiment
(`src/web/experiment.js`) and its live dashboard (`src/web/dashboard.js`).

The experiment presents letter strings (words and pseudowords) at brief
durations, collects a timed binary decision per trial, scores it, and
aggregates accuracy / reaction-time statistics in two places: a local
end-of-session summary (`computeSummary`) and a remote live dashboard
(`recomputeAll`).

Modelling conventions:
* JavaScript numbers are modelled as `Nat` (durations in milliseconds,
  counts) or `ℚ` (timestamps, reaction times, means).
* JavaScript `null` / the empty string `""` in fallible fields are
  modelled as `Option`.
* `Math.random`-driven shuffles are modelled by quantifying over any
  permutation (`List.Perm`) of the pre-shuffle list.
* Event-driven code (`waitForResponse`, `requestAnimationFrame` loops) is
  modelled as a fold over the chronologically ordered list of delivered
  events / frame timestamps, which is faithful to the single-threaded
  JavaScript event loop.
-/

/-- Lexicality of a stimulus: real word or pronounceable pseudoword.
Mirrors the `"word"` / `"pseudoword"` string tags in the source. -/
inductive Lexicality where
  | word
  | pseudoword
  deriving DecidableEq, Repr

/-- A trial specification before trial numbers are assigned: the objects
pushed by `generateTrials` / `generatePracticeTrials` in `experiment.js`. -/
structure TrialSpec0 where
  stimulus : String
  lexicality : Lexicality
  duration : Nat
  deriving DecidableEq, Repr

/-- A trial specification after `generateTrials` stamps `trialNumber`. -/
structure TrialSpec extends TrialSpec0 where
  trialNumber : Nat
  deriving DecidableEq, Repr

/-- The mutable shared configuration object `CONFIG` of `experiment.js`
(the fields that the embedded operations read or write). -/
structure WebConfig where
  nReps : Nat
  fixationDuration : Nat
  maskDuration : Nat
  responseTimeout : Nat
  feedbackDuration : Nat
  keyWord : String
  keyNonword : String
  deriving DecidableEq, Repr

/-- The initial value of `CONFIG` in `experiment.js` (timing and key fields). -/
def initialConfig : WebConfig :=
  { nReps := 1
    fixationDuration := 500
    maskDuration := 150
    responseTimeout := 2000
    feedbackDuration := 500
    keyWord := "f"
    keyNonword := "j" }

/-- `CONFIG.words` in `experiment.js`. -/
def configWords : List String :=
  ["river", "window", "sugar", "forest", "jacket",
   "island", "kitten", "cheese", "hammer", "candle"]

/-- `CONFIG.pseudowords` in `experiment.js`. -/
def configPseudowords : List String :=
  ["tible", "hause", "gardon", "flomer", "desern",
   "strean", "perlun", "morle", "stome", "waper"]

/-- `CONFIG.practiceItems` in `experiment.js` (stimulus, lexicality pairs). -/
def practiceItems : List (String × Lexicality) :=
  [("finger", Lexicality.word), ("church", Lexicality.word), ("carrot", Lexicality.word),
   ("hamen", Lexicality.pseudoword), ("pamer", Lexicality.pseudoword), ("waten", Lexicality.pseudoword)]

/-- `CONFIG.durations` in `experiment.js` (milliseconds). -/
def configDurations : List Nat := [40, 200]

/-- `CONFIG.maxSameLexInRow` in `experiment.js`. -/
def configMaxSameLexInRow : Nat := 3

-- =========================================================================
-- Trial generation (`generateTrials`, `generatePracticeTrials`)
-- =========================================================================

/-- One duration block of the factorial in `generateTrials`: all words
(tagged `word`) followed by all pseudowords (tagged `pseudoword`), each at
duration `d`. -/
def specsForDuration (words pseudos : List String) (d : Nat) : List TrialSpec0 :=
  words.map (fun w => ⟨w, Lexicality.word, d⟩) ++ pseudos.map (fun p => ⟨p, Lexicality.pseudoword, d⟩)

/-- The unshuffled factorial trial list built by the nested loops of
`generateTrials`: for each repetition, for each duration, every word then
every pseudoword. -/
def buildTrials (words pseudos : List String) (durations : List Nat) (nReps : Nat) :
    List TrialSpec0 :=
  (List.range nReps).flatMap (fun _ => durations.flatMap (specsForDuration words pseudos))

/-- The trial-number stamping pass at the end of `generateTrials`:
`trials.forEach((t, i) => { t.trialNumber = i; })`. -/
def assignNumbers (l : List TrialSpec0) : List TrialSpec :=
  l.enum.map (fun p => ⟨p.2, p.1⟩)

/-- Loop body of `checkLexConstraint`: `prev` is the previous trial's
lexicality and `count` the length of the current same-lexicality run. -/
def checkAux (maxRun : Nat) : Lexicality → Nat → List Lexicality → Bool
  | _, _, [] => true
  | prev, count, x :: rest =>
    if x = prev then
      if count + 1 > maxRun then false
      else checkAux maxRun x (count + 1) rest
    else checkAux maxRun x 1 rest

/-- `checkLexConstraint(trials, maxRun)` from `experiment.js`, reading the
lexicality sequence of the trial list: scans adjacent pairs keeping a run
counter that starts at 1, and fails as soon as a run exceeds `maxRun`. -/
def checkLexConstraint (l : List Lexicality) (maxRun : Nat) : Bool :=
  match l with
  | [] => true
  | x :: rest => checkAux maxRun x 1 rest

/-- Specification predicate (independent of the scanning loop): the
lexicality sequence contains a run of `n` consecutive equal entries. -/
def containsRun (l : List Lexicality) (n : Nat) : Prop :=
  ∃ c pre post, l = pre ++ List.replicate n c ++ post

/-- The retry loop of `generateTrials`: try each shuffle outcome in turn
(up to the cap, here the length of `attempts`), keep the first one that
passes `checkLexConstraint`; if all fail, the last shuffled order is kept.
`fallback` is the current order entering the loop, returned only when
`attempts` is empty. -/
def retryShuffleClean (attempts : List (List TrialSpec0)) (fallback : List TrialSpec0)
    (maxRun : Nat) : List TrialSpec0 :=
  match attempts with
  | [] => fallback
  | a :: rest =>
    if checkLexConstraint (a.map (·.lexicality)) maxRun then a
    else retryShuffleClean rest a maxRun

/-- The duration-assignment pass of `generatePracticeTrials`: item `i` of
the practice catalog gets `durations[0]` when `i < Math.ceil(n / 2)` and
`durations[durations.length - 1]` otherwise.  The subsequent `shuffle` is
modelled as an arbitrary permutation of this list. -/
def generatePracticeAssigned (items : List (String × Lexicality)) (durations : List Nat) :
    List TrialSpec0 :=
  let half := (items.length + 1) / 2
  items.enum.map (fun p =>
    ⟨p.2.1, p.2.2, if p.1 < half then durations.headD 0 else durations.getLastD 0⟩)

-- =========================================================================
-- Phase scheduler (`showForDuration`)
-- =========================================================================

/-- The `requestAnimationFrame` loop body of `showForDuration`: given the
first frame's timestamp `startTime`, resolve at the first frame timestamp
`t` with `t - startTime >= durationMs`, otherwise request the next frame.
Timestamps are rationals (milliseconds). -/
def frameLoop (durationMs startTime : ℚ) : List ℚ → Option ℚ
  | [] => none
  | t :: rest =>
    if durationMs ≤ t - startTime then some t else frameLoop durationMs startTime rest

/-- `showForDuration(html, durationMs)` from `experiment.js`, applied to the
chronological sequence of display-refresh timestamps the browser delivers:
the first callback records `startTime` and every callback (including the
first) resolves once elapsed time reaches `durationMs`.  Returns the
resolution timestamp, or `none` if the frame stream ends first. -/
def showForDuration (durationMs : ℚ) : List ℚ → Option ℚ
  | [] => none
  | t0 :: rest => frameLoop durationMs t0 (t0 :: rest)

-- =========================================================================
-- Response collector (`waitForResponse`)
-- =========================================================================

/-- The resolution payload of `waitForResponse`: `{ key, rt }`, where both
fields are `null` on timeout.  `rt` is elapsed milliseconds since the
response window opened (`performance.now() - startTime`). -/
structure RawResponse where
  key : Option String
  rt : Option ℚ
  deriving DecidableEq, Repr

/-- The collector's mutable state: the `resolved` flag, whether each
listener registered on entry (keydown, word button, nonword button) is
still attached, whether the timeout timer is still pending, and the
resolution payload (`none` while the promise is pending). -/
structure CollectorState where
  resolved : Bool
  keyListener : Bool
  wordBtn : Bool
  nonwordBtn : Bool
  timerActive : Bool
  result : Option RawResponse
  deriving DecidableEq, Repr

/-- State of the collector right after `waitForResponse` registers its
listeners and timer. -/
def collectorInit : CollectorState :=
  { resolved := false, keyListener := true, wordBtn := true, nonwordBtn := true
    timerActive := true, result := none }

/-- Events that can be delivered to the collector while its promise is
pending: a keydown with its key string and elapsed time, a pointerup tap on
either button with its elapsed time, or the timeout timer firing. -/
inductive RespEvent where
  | keydown (k : String) (t : ℚ)
  | tapWord (t : ℚ)
  | tapNonword (t : ℚ)
  | timerFire
  deriving DecidableEq, Repr

/-- `respond(key)` from `waitForResponse`: a no-op when already resolved,
otherwise set `resolved`, run `cleanup()` (detach every listener, clear the
timer) and resolve with `{ key, rt: elapsed }`. -/
def respond (s : CollectorState) (key : String) (t : ℚ) : CollectorState :=
  if s.resolved then s
  else
    { resolved := true, keyListener := false, wordBtn := false, nonwordBtn := false
      timerActive := false, result := some ⟨some key, some t⟩ }

/-- One event delivery to the collector.  A keydown is seen only while the
keydown listener is attached, and is accepted only when the lowercased key
matches one of the two bound keys (`onKey`); taps are seen only while the
corresponding button listener is attached (`onTapWord` / `onTapNonword`);
the timer callback runs only if `clearTimeout` has not cancelled it, and
re-checks `resolved` before resolving with `{ key: null, rt: null }`. -/
def collectorStep (cfg : WebConfig) (s : CollectorState) : RespEvent → CollectorState
  | .keydown k t =>
    if s.keyListener then
      if k.toLower = cfg.keyWord then respond s cfg.keyWord t
      else if k.toLower = cfg.keyNonword then respond s cfg.keyNonword t
      else s
    else s
  | .tapWord t => if s.wordBtn then respond s cfg.keyWord t else s
  | .tapNonword t => if s.nonwordBtn then respond s cfg.keyNonword t else s
  | .timerFire =>
    if s.timerActive then
      if s.resolved then s
      else
        { resolved := true, keyListener := false, wordBtn := false, nonwordBtn := false
          timerActive := false, result := some ⟨none, none⟩ }
    else s

/-- Run one `waitForResponse` window against a chronological event list. -/
def runCollector (cfg : WebConfig) (events : List RespEvent) : CollectorState :=
  events.foldl (collectorStep cfg) collectorInit

/-- Specification of the collector's outcome: the payload determined by the
first decisive event of the window — the first accepted input (a bound key
or a button tap) or the timeout, whichever comes first in the event order. -/
def firstOutcome (cfg : WebConfig) : List RespEvent → Option RawResponse
  | [] => none
  | .keydown k t :: rest =>
    if k.toLower = cfg.keyWord then some ⟨some cfg.keyWord, some t⟩
    else if k.toLower = cfg.keyNonword then some ⟨some cfg.keyNonword, some t⟩
    else firstOutcome cfg rest
  | .tapWord t :: _ => some ⟨some cfg.keyWord, some t⟩
  | .tapNonword t :: _ => some ⟨some cfg.keyNonword, some t⟩
  | .timerFire :: _ => some ⟨none, none⟩

-- =========================================================================
-- Trial scoring (`runTrial`)
-- =========================================================================

/-- `Number.prototype.toFixed(6)` on a nonnegative reaction time: round to 6
decimal places (the produced CSV string is modelled by its numeric value). -/
def toFixed6 (q : ℚ) : ℚ :=
  (round (q * 1000000) : ℤ) / 1000000

/-- The canonical binary decision recorded by the task. -/
inductive Decision where
  | word
  | nonword
  deriving DecidableEq, Repr

/-- The completed-trial record built at the end of `runTrial`.  `response`
is `1` / `0` / empty (`none`), `RT` is in seconds and empty (`none`) on
timeout, `accuracy` is `1` or `0`. -/
structure TrialOutcome where
  stimulus : String
  lexicality : Lexicality
  duration : Nat
  response : Option Nat
  RT : Option ℚ
  accuracy : Nat
  deriving DecidableEq, Repr

/-- The scoring tail of `runTrial`: from the collector's `{ key, rt }`
(modelled as `Option (String × ℚ)`, `none` when both are `null`), compute
`timedOut`, `expected`, `correct`, and build the result object. -/
def scoreTrial (cfg : WebConfig) (trial : TrialSpec0) (resp : Option (String × ℚ)) :
    TrialOutcome :=
  let expected := if trial.lexicality = Lexicality.word then cfg.keyWord else cfg.keyNonword
  let correct := match resp with
    | none => false
    | some (key, _) => key = expected
  { stimulus := trial.stimulus
    lexicality := trial.lexicality
    duration := trial.duration
    response :=
      match resp with
      | none => none
      | some (key, _) => some (if key = cfg.keyWord then 1 else 0)
    RT :=
      match resp with
      | none => none
      | some (_, rt) => some (toFixed6 (rt / 1000))
    accuracy := if correct then 1 else 0 }

/-- The decision implied by a stimulus's lexicality: word → "word",
pseudoword → "nonword". -/
def impliedDecision : Lexicality → Decision
  | Lexicality.word => Decision.word
  | Lexicality.pseudoword => Decision.nonword

/-- The decision denoted by an accepted key under a key binding: the key
bound to "word" means `word`, any other accepted key means `nonword`. -/
def decisionOfKey (cfg : WebConfig) (key : String) : Decision :=
  if key = cfg.keyWord then Decision.word else Decision.nonword

/-- The physical key a participant presses to express decision `d` under
the session's key binding. -/
def keyFor (cfg : WebConfig) (d : Decision) : String :=
  match d with
  | Decision.word => cfg.keyWord
  | Decision.nonword => cfg.keyNonword

-- =========================================================================
-- Statistics aggregation (`computeSummary` in experiment.js,
-- `recomputeAll` in dashboard.js)
-- =========================================================================

/-- The fields of a trial record that the two aggregators read.  `RT` is
the stored reaction-time field: `none` models the empty string written on
timeout, `some q` a populated value in seconds (`parseFloat` of the stored
string). -/
structure ResultRow where
  lexicality : Lexicality
  duration : Nat
  accuracy : Nat
  RT : Option ℚ
  deriving DecidableEq, Repr

/-- One aggregated cell as reported by either consumer.  `acc` and `rt` use
`Option` so that the JavaScript `null` (`none`) stays distinguishable from
the number `0` (`some 0`). -/
structure CellStats where
  acc : Option ℚ
  rt : Option ℚ
  n : Nat
  deriving DecidableEq, Repr

/-- The `stats(subset)` helper inside `computeSummary`: an empty subset
yields `{ acc: 0, rt: null, n: 0 }`; otherwise mean accuracy over the
subset, and mean of `parseFloat(RT)` over the rows with `accuracy === 1`
and a non-empty `RT` (or `null` when there are none). -/
def stats (subset : List ResultRow) : CellStats :=
  let n := subset.length
  if n = 0 then ⟨some 0, none, 0⟩
  else
    let acc := ((subset.map (·.accuracy)).sum : ℚ) / (n : ℚ)
    let correct := subset.filter (fun r => r.accuracy == 1 && r.RT.isSome)
    let rt :=
      if 0 < correct.length then
        some ((correct.filterMap (·.RT)).sum / (correct.length : ℚ))
      else none
    ⟨some acc, rt, n⟩

/-- One `(lexicality, duration)` cell of `computeSummary`:
`stats(results.filter(r => r.lexicality === lex && r.duration === dur))`.
(`computeSummary` evaluates this for each lexicality and each duration
value observed in the results.) -/
def summaryCell (results : List ResultRow) (lex : Lexicality) (dur : Nat) : CellStats :=
  stats (results.filter (fun r => r.lexicality == lex && r.duration == dur))

/-- The trial-level exclusion filter of `recomputeAll` in `dashboard.js`:
keep a trial iff its `RT` is populated and `0.2 ≤ RT ≤ 2.0` (both bounds
inclusive: the code drops `rt < 0.2` and `rt > 2.0`). -/
def cleanFilter (t : ResultRow) : Bool :=
  match t.RT with
  | none => false
  | some rt => !(rt < 1/5) && !(rt > 2)

/-- One `(lexicality, duration)` cell of the dashboard's `grandStats`:
filter all trials through `cleanFilter`, partition by lexicality and
duration, then report `n`, mean accuracy (`null` when `n = 0`), and the
mean `parseFloat(RT)` over rows with `accuracy === 1` (`null` when there
are none).  `recomputeAll` evaluates this for the four conditions
`{word, pseudoword} × {40, 200}`. -/
def dashboardCell (allTrials : List ResultRow) (lex : Lexicality) (dur : Nat) : CellStats :=
  let clean := allTrials.filter cleanFilter
  let subset := clean.filter (fun t => t.lexicality == lex && t.duration == dur)
  let n := subset.length
  let acc :=
    if 0 < n then some (((subset.map (·.accuracy)).sum : ℚ) / (n : ℚ)) else none
  let correct := subset.filter (fun t => t.accuracy == 1)
  let meanRT :=
    if 0 < correct.length then
      some ((correct.filterMap (·.RT)).sum / (correct.length : ℚ))
    else none
  ⟨acc, meanRT, n⟩

-- =========================================================================
-- Form parameters and experiment start (`applyFormParameters`,
-- `runExperiment`)
-- =========================================================================

/-- `String.prototype.trim` of the subject-id field: strip leading and
trailing whitespace. -/
def trimStr (s : String) : String :=
  ⟨((s.data.dropWhile Char.isWhitespace).reverse.dropWhile Char.isWhitespace).reverse⟩

/-- `parseInt(field) || d`: a missing / unparsable field (`none`, JS `NaN`)
and a parsed `0` both fall back to the default `d`. -/
def jsOr (v : Option Nat) (d : Nat) : Nat :=
  match v with
  | none => d
  | some 0 => d
  | some n => n

/-- The welcome form's inputs as read by `applyFormParameters` and
`runExperiment`: the five numeric parameter fields (`none` when the text
does not parse), the key-swap checkbox, and the raw subject-id text. -/
structure StartForm where
  reps : Option Nat
  fixDur : Option Nat
  maskDur : Option Nat
  respTimeout : Option Nat
  fbDur : Option Nat
  swap : Bool
  subjectId : String
  deriving DecidableEq, Repr

/-- `applyFormParameters()` from `experiment.js`: overwrite the five timing
/ design fields of `CONFIG` (with their defaults as `||` fallbacks), and
when the swap checkbox is checked set `keyWord := "j"`, `keyNonword := "f"`. -/
def applyFormParameters (f : StartForm) (c : WebConfig) : WebConfig :=
  let c1 :=
    { c with
      nReps := jsOr f.reps 1
      fixationDuration := jsOr f.fixDur 500
      maskDuration := jsOr f.maskDur 150
      responseTimeout := jsOr f.respTimeout 2000
      feedbackDuration := jsOr f.fbDur 500 }
  if f.swap then { c1 with keyWord := "j", keyNonword := "f" } else c1

/-- The start prefix of `runExperiment()`: first `applyFormParameters()`
mutates the shared `CONFIG`, then the trimmed subject id is checked; if it
is empty the function alerts and returns before any session or trial state
is created.  Returns the configuration state after the attempt and whether
the experiment proceeded past the guard. -/
def startExperiment (f : StartForm) (c : WebConfig) : WebConfig × Bool :=
  let c' := applyFormParameters f c
  if trimStr f.subjectId = "" then (c', false) else (c', true)

-- =========================================================================
-- Helper lemmas
-- =========================================================================

/-- From a live (unresolved) frame-loop state, a resolution returned by
`frameLoop` is a qualifying timestamp, belongs to the frame stream, and is
the earliest qualifying timestamp of a strictly increasing stream. -/
theorem frameLoop_spec (d t0 : ℚ) :
    ∀ l : List ℚ, List.Sorted (· < ·) l →
      ∀ res, frameLoop d t0 l = some res →
        d ≤ res - t0 ∧ res ∈ l ∧ ∀ t ∈ l, d ≤ t - t0 → res ≤ t := by
  intro l
  induction l with
  | nil => intro _ res h; simp [frameLoop] at h
  | cons t rest ih =>
    intro hsorted res h
    rw [frameLoop] at h
    by_cases hq : d ≤ t - t0
    · rw [if_pos hq] at h
      cases h
      refine ⟨hq, List.mem_cons_self _ _, ?_⟩
      intro u hu _
      rcases List.mem_cons.mp hu with rfl | hu'
      · exact le_refl _
      · exact le_of_lt ((List.sorted_cons.mp hsorted).1 u hu')
    · rw [if_neg hq] at h
      obtain ⟨h1, h2, h3⟩ := ih (List.sorted_cons.mp hsorted).2 res h
      refine ⟨h1, List.mem_cons_of_mem _ h2, ?_⟩
      intro u hu hq'
      rcases List.mem_cons.mp hu with rfl | hu'
      · exact absurd hq' hq
      · exact h3 u hu' hq'

/-- If some frame of the stream qualifies, `frameLoop` resolves. -/
theorem frameLoop_total (d t0 : ℚ) :
    ∀ l : List ℚ, (∃ t ∈ l, d ≤ t - t0) → (frameLoop d t0 l).isSome := by
  intro l
  induction l with
  | nil => rintro ⟨t, ht, _⟩; simp at ht
  | cons t rest ih =>
    rintro ⟨u, hu, hq⟩
    rw [frameLoop]
    by_cases hqt : d ≤ t - t0
    · simp [hqt]
    · rw [if_neg hqt]
      rcases List.mem_cons.mp hu with rfl | hu'
      · exact absurd hq hqt
      · exact ih ⟨u, hu', hq⟩

-- =========================================================================
-- C7 — phase scheduler timing floor
-- =========================================================================

/-- C7: for every requested duration and every strictly increasing stream
of display-refresh timestamps, `showForDuration` resolves at the first
refresh timestamp whose elapsed time since the phase's first frame is at
least the requested duration: the resolution timestamp `res` satisfies
`d ≤ res - t0` (the actual display duration is never shorter than
requested), lies in the stream, and every qualifying frame is no earlier
than `res`; moreover a resolution exists whenever some frame qualifies. -/
theorem showForDuration_timing_floor (d t0 : ℚ) (frames : List ℚ)
    (hsorted : List.Sorted (· < ·) (t0 :: frames)) :
    (∀ res, showForDuration d (t0 :: frames) = some res →
      d ≤ res - t0 ∧ res ∈ t0 :: frames ∧ ∀ t ∈ t0 :: frames, d ≤ t - t0 → res ≤ t)
    ∧ ((∃ t ∈ t0 :: frames, d ≤ t - t0) → (showForDuration d (t0 :: frames)).isSome) := by
  constructor
  · intro res h
    rw [showForDuration] at h
    exact frameLoop_spec d t0 (t0 :: frames) hsorted res h
  · intro hex
    rw [showForDuration]
    exact frameLoop_total d t0 (t0 :: frames) hex

/-- C7 witness: a 40 ms stimulus phase on a 16.7 ms refresh stream resolves
at 50.1 ms — the first tick at or past 40 ms, never before it. -/
theorem showForDuration_timing_floor_witness :
    40 ≤ (501/10 : ℚ) - 0 ∧ (501/10 : ℚ) ∈ [(0 : ℚ), 167/10, 334/10, 501/10] := by
  have h := (showForDuration_timing_floor 40 0 [167/10, 334/10, 501/10]
      (by norm_num [List.sorted_cons])).1
    (501/10) (by norm_num [showForDuration, frameLoop])
  exact ⟨h.1, h.2.1⟩

/-- The torn-down (resolved) collector state with payload `r`. -/
def collectorDone (r : RawResponse) : CollectorState :=
  { resolved := true, keyListener := false, wordBtn := false, nonwordBtn := false
    timerActive := false, result := some r }

/-- Once the collector is resolved and torn down, every further event is a
no-op: no listener can observe it and the cleared timer cannot fire. -/
theorem collectorStep_done (cfg : WebConfig) (r : RawResponse) (e : RespEvent) :
    collectorStep cfg (collectorDone r) e = collectorDone r := by
  cases e <;> simp [collectorStep, collectorDone]

/-- Folding any further event list over a resolved, torn-down state leaves
it unchanged. -/
theorem foldl_collectorStep_done (cfg : WebConfig) (r : RawResponse) :
    ∀ events : List RespEvent,
      events.foldl (collectorStep cfg) (collectorDone r) = collectorDone r := by
  intro events
  induction events with
  | nil => rfl
  | cons e rest ih => rw [List.foldl_cons, collectorStep_done]; exact ih

/-- The collector run is determined by the first decisive event: it ends in
the initial (armed, unresolved) state when no decisive event arrives, and
in the torn-down state carrying the first decisive event's payload
otherwise. -/
theorem runCollector_eq_firstOutcome (cfg : WebConfig) :
    ∀ events : List RespEvent,
      runCollector cfg events =
        match firstOutcome cfg events with
        | none => collectorInit
        | some r => collectorDone r := by
  intro events
  induction events with
  | nil => rfl
  | cons e rest ih =>
    cases e with
    | keydown k t =>
      by_cases hw : k.toLower = cfg.keyWord
      · show (RespEvent.keydown k t :: rest).foldl (collectorStep cfg) collectorInit = _
        rw [List.foldl_cons]
        have hstep : collectorStep cfg collectorInit (RespEvent.keydown k t) =
            collectorDone ⟨some cfg.keyWord, some t⟩ := by
          simp [collectorStep, collectorInit, hw, respond, collectorDone]
        rw [hstep, foldl_collectorStep_done]
        simp [firstOutcome, hw]
      · by_cases hn : k.toLower = cfg.keyNonword
        · show (RespEvent.keydown k t :: rest).foldl (collectorStep cfg) collectorInit = _
          rw [List.foldl_cons]
          have hstep : collectorStep cfg collectorInit (RespEvent.keydown k t) =
              collectorDone ⟨some cfg.keyNonword, some t⟩ := by
            simp [collectorStep, collectorInit, hw, hn, respond, collectorDone]
            exact fun h => h.symm
          rw [hstep, foldl_collectorStep_done]
          by_cases he : cfg.keyNonword = cfg.keyWord
          · exact absurd (hn.trans he) hw
          · simp [firstOutcome, hw, hn, he]
        · show (RespEvent.keydown k t :: rest).foldl (collectorStep cfg) collectorInit = _
          rw [List.foldl_cons]
          have hstep : collectorStep cfg collectorInit (RespEvent.keydown k t) =
              collectorInit := by
            simp [collectorStep, collectorInit, hw, hn]
          rw [hstep]
          have : firstOutcome cfg (RespEvent.keydown k t :: rest) =
              firstOutcome cfg rest := by
            simp [firstOutcome, hw, hn]
          rw [this]
          exact ih
    | tapWord t =>
      show (RespEvent.tapWord t :: rest).foldl (collectorStep cfg) collectorInit = _
      rw [List.foldl_cons]
      have hstep : collectorStep cfg collectorInit (RespEvent.tapWord t) =
          collectorDone ⟨some cfg.keyWord, some t⟩ := by
        simp [collectorStep, collectorInit, respond, collectorDone]
      rw [hstep, foldl_collectorStep_done]
      rfl
    | tapNonword t =>
      show (RespEvent.tapNonword t :: rest).foldl (collectorStep cfg) collectorInit = _
      rw [List.foldl_cons]
      have hstep : collectorStep cfg collectorInit (RespEvent.tapNonword t) =
          collectorDone ⟨some cfg.keyNonword, some t⟩ := by
        simp [collectorStep, collectorInit, respond, collectorDone]
      rw [hstep, foldl_collectorStep_done]
      rfl
    | timerFire =>
      show (RespEvent.timerFire :: rest).foldl (collectorStep cfg) collectorInit = _
      rw [List.foldl_cons]
      have hstep : collectorStep cfg collectorInit RespEvent.timerFire =
          collectorDone ⟨none, none⟩ := by
        simp [collectorStep, collectorInit, collectorDone]
      rw [hstep, foldl_collectorStep_done]
      rfl

-- =========================================================================
-- C6 — response collector resolves exactly once, with full teardown
-- =========================================================================

/-- C6: during one response window the collector resolves exactly once:
its result is exactly the payload of the first decisive event (first
accepted input or timeout, whichever comes first), so events after the
first decisive one — including the losing path — can never change it; it
is resolved iff a decisive event occurred; on either exit path every
listener and the timer registered on entry are torn down, while an
unresolved window still holds every listener and the timer; and a window
whose first event is the timeout resolves with decision `none` and
reaction time `none`. -/
theorem waitForResponse_resolves_once (cfg : WebConfig) (events : List RespEvent) :
    (runCollector cfg events).result = firstOutcome cfg events
    ∧ (runCollector cfg events).resolved = (firstOutcome cfg events).isSome
    ∧ ((runCollector cfg events).resolved = true →
        (runCollector cfg events).keyListener = false
        ∧ (runCollector cfg events).wordBtn = false
        ∧ (runCollector cfg events).nonwordBtn = false
        ∧ (runCollector cfg events).timerActive = false)
    ∧ ((runCollector cfg events).resolved = false →
        (runCollector cfg events).keyListener = true
        ∧ (runCollector cfg events).wordBtn = true
        ∧ (runCollector cfg events).nonwordBtn = true
        ∧ (runCollector cfg events).timerActive = true)
    ∧ (∀ rest, (runCollector cfg (RespEvent.timerFire :: rest)).result =
        some ⟨none, none⟩) := by
  have hrun := runCollector_eq_firstOutcome cfg events
  refine ⟨?_, ?_, ?_, ?_, ?_⟩
  · rw [hrun]; cases firstOutcome cfg events <;> rfl
  · rw [hrun]; cases firstOutcome cfg events <;> rfl
  · rw [hrun]; cases firstOutcome cfg events with
    | none => intro h; cases h
    | some r => intro _; exact ⟨rfl, rfl, rfl, rfl⟩
  · rw [hrun]; cases firstOutcome cfg events with
    | none => intro _; exact ⟨rfl, rfl, rfl, rfl⟩
    | some r => intro h; cases h
  · intro rest
    rw [runCollector_eq_firstOutcome cfg (RespEvent.timerFire :: rest)]
    rfl

-- =========================================================================
-- C3 — trial scoring
-- =========================================================================

/-- C3: for every completed trial, the result has `accuracy = 1` iff a
decision was made (the collector did not time out) and that decision equals
the decision implied by the stimulus's lexicality (word → "word",
pseudoword → "nonword"); and the reaction-time field is populated iff a
decision was made.  The hypotheses record what `waitForResponse`
guarantees about a non-timeout payload: the key is one of the two bound
keys, and the two bound keys are distinct. -/
theorem runTrial_scoring_correct (cfg : WebConfig) (trial : TrialSpec0)
    (resp : Option (String × ℚ))
    (hkeys : cfg.keyWord ≠ cfg.keyNonword)
    (haccepted : ∀ k t, resp = some (k, t) → k = cfg.keyWord ∨ k = cfg.keyNonword) :
    ((scoreTrial cfg trial resp).accuracy = 1 ↔
      ∃ k t, resp = some (k, t) ∧ decisionOfKey cfg k = impliedDecision trial.lexicality)
    ∧ ((scoreTrial cfg trial resp).RT ≠ none ↔ resp ≠ none) := by
  cases resp with
  | none =>
    constructor
    · constructor
      · intro h; simp [scoreTrial] at h
      · rintro ⟨k, t, h, _⟩; cases h
    · simp [scoreTrial]
  | some kt =>
    obtain ⟨k, t⟩ := kt
    obtain ⟨st, lx, du⟩ := trial
    have hk : k = cfg.keyWord ∨ k = cfg.keyNonword := haccepted k t rfl
    constructor
    · cases lx with
      | word =>
        rcases hk with rfl | rfl
        · simp [scoreTrial, decisionOfKey, impliedDecision]
        · simp [scoreTrial, decisionOfKey, impliedDecision, hkeys, Ne.symm hkeys]
      | pseudoword =>
        rcases hk with rfl | rfl
        · simp [scoreTrial, decisionOfKey, impliedDecision, hkeys, Ne.symm hkeys]
        · simp [scoreTrial, decisionOfKey, impliedDecision, hkeys, Ne.symm hkeys]
    · simp [scoreTrial]

/-- C3 witness: stimulus "river" (word) answered with the word key 350 ms
in: accuracy is 1 and the reaction-time field is populated. -/
theorem runTrial_scoring_correct_witness :
    (scoreTrial initialConfig ⟨"river", Lexicality.word, 40⟩ (some ("f", 350))).accuracy = 1
    ∧ (scoreTrial initialConfig ⟨"river", Lexicality.word, 40⟩ (some ("f", 350))).RT ≠ none := by
  have h := runTrial_scoring_correct initialConfig ⟨"river", Lexicality.word, 40⟩
    (some ("f", 350)) (by decide)
    (by intro k t hkt
        rw [Option.some_inj, Prod.mk.injEq] at hkt
        exact Or.inl hkt.1.symm)
  exact ⟨h.1.mpr ⟨"f", 350, rfl, by decide⟩, h.2.mpr (by simp)⟩

-- =========================================================================
-- C10 — exported response field is independent of the key binding
-- =========================================================================

/-- C10: the exported `response` field equals `1` exactly when the
participant's decision was "word" and `0` when it was "nonword",
independently of the key-to-decision binding: under any two configurations
produced by `applyFormParameters` from the initial configuration (key swap
on or off), pressing the key bound to the same decision records the same
`response` value, namely `1` for "word" and `0` for "nonword". -/
theorem response_field_binding_invariant (f g : StartForm) (trial : TrialSpec0)
    (d : Decision) (rt : ℚ) :
    (scoreTrial (applyFormParameters f initialConfig) trial
        (some (keyFor (applyFormParameters f initialConfig) d, rt))).response =
      (scoreTrial (applyFormParameters g initialConfig) trial
        (some (keyFor (applyFormParameters g initialConfig) d, rt))).response
    ∧ (scoreTrial (applyFormParameters f initialConfig) trial
        (some (keyFor (applyFormParameters f initialConfig) d, rt))).response =
      some (if d = Decision.word then 1 else 0) := by
  have key : ∀ h : StartForm,
      (scoreTrial (applyFormParameters h initialConfig) trial
        (some (keyFor (applyFormParameters h initialConfig) d, rt))).response =
      some (if d = Decision.word then 1 else 0) := by
    intro h
    cases hs : h.swap <;> cases d <;>
      simp [applyFormParameters, scoreTrial, keyFor, hs, initialConfig]
  exact ⟨(key f).trans (key g).symm, key f⟩

-- =========================================================================
-- C8 — aborting on a missing participant identifier
-- =========================================================================

/-- A welcome form with the key-swap box checked and an empty subject id. -/
def emptyIdSwapForm : StartForm :=
  { reps := none, fixDur := none, maskDur := none, respTimeout := none, fbDur := none
    swap := true, subjectId := "" }

/-- C8 counterexample: with an empty participant identifier and the swap
box checked, the start attempt aborts (no session is created), yet the
shared configuration observably differs afterwards — `applyFormParameters`
already swapped the key binding before the identifier was checked.  This
refutes the claim that no observable state, including the shared
configuration, differs after an aborted start. -/
theorem startExperiment_mutates_config_on_abort :
    (startExperiment emptyIdSwapForm initialConfig).2 = false
    ∧ (startExperiment emptyIdSwapForm initialConfig).1 ≠ initialConfig
    ∧ (startExperiment emptyIdSwapForm initialConfig).1.keyWord = "j"
    ∧ initialConfig.keyWord = "f" := by
  refine ⟨rfl, ?_, rfl, rfl⟩
  intro h
  have : (startExperiment emptyIdSwapForm initialConfig).1.keyWord =
      initialConfig.keyWord := by rw [h]
  simp [startExperiment, emptyIdSwapForm, applyFormParameters, initialConfig, trimStr] at this

/-- C8 amended: if the participant identifier is empty after trimming, the
start attempt aborts before any session or trial state is created — it
returns `false` (the guard fails before `createSession` and before any
trial runs) — but the shared configuration has already been overwritten by
`applyFormParameters`, which runs before the identifier check; that
configuration write is the only side effect of the aborted attempt. -/
theorem startExperiment_abort_before_session (f : StartForm) (c : WebConfig)
    (hid : trimStr f.subjectId = "") :
    startExperiment f c = (applyFormParameters f c, false) := by
  simp [startExperiment, hid]

/-- C8 witness: the amended abort behaviour at the concrete empty-id form. -/
theorem startExperiment_abort_before_session_witness :
    startExperiment emptyIdSwapForm initialConfig =
      (applyFormParameters emptyIdSwapForm initialConfig, false) :=
  startExperiment_abort_before_session emptyIdSwapForm initialConfig (by decide)

-- =========================================================================
-- C1 — reporting for a cell with zero matching results
-- =========================================================================

/-- A result set containing a single word trial at 40 ms, so that the
(pseudoword, 40 ms) partition has zero matching results. -/
def soloWordRow : ResultRow := ⟨Lexicality.word, 40, 1, some (3/10)⟩

/-- C1 counterexample: on a result set whose (pseudoword, 40 ms) cell has
zero matching results, the end-of-session summary (`stats` inside
`computeSummary`) reports that cell's accuracy as the number `0`
(`{ acc: 0, rt: null, n: 0 }`), not as undefined — refuting the claim that
both consumers report undefined accuracy for an empty cell.  (Its mean
reaction time is reported as undefined, and the live dashboard reports
both as undefined.) -/
theorem summary_empty_cell_reports_zero :
    ([soloWordRow].filter
        (fun r => r.lexicality == Lexicality.pseudoword && r.duration == 40)).length = 0
    ∧ (summaryCell [soloWordRow] Lexicality.pseudoword 40).acc = some 0
    ∧ (summaryCell [soloWordRow] Lexicality.pseudoword 40).acc ≠ none := by
  refine ⟨rfl, rfl, ?_⟩
  intro h
  simp [summaryCell, soloWordRow, stats] at h

/-- C1 amended: for every result set and every (lexicality, duration)
partition with zero matching results, the live multi-subject view reports
both the cell's accuracy and its mean reaction time as undefined (`null`),
and the end-of-session summary reports the mean reaction time as undefined
— but the summary reports the accuracy of such a cell as the number `0`,
not as undefined. -/
theorem empty_cell_reporting (results : List ResultRow) (lex : Lexicality) (dur : Nat)
    (h : results.filter (fun r => r.lexicality == lex && r.duration == dur) = []) :
    summaryCell results lex dur = ⟨some 0, none, 0⟩
    ∧ dashboardCell results lex dur = ⟨none, none, 0⟩ := by
  constructor
  · rw [summaryCell, h]; rfl
  · have hall : ∀ r ∈ results,
        ¬((fun r : ResultRow => r.lexicality == lex && r.duration == dur) r = true) := by
      intro r hr
      exact (List.filter_eq_nil_iff.mp h) r hr
    have hsub : (results.filter cleanFilter).filter
        (fun t => t.lexicality == lex && t.duration == dur) = [] := by
      apply List.filter_eq_nil_iff.mpr
      intro a ha
      exact hall a (List.mem_of_mem_filter ha)
    simp [dashboardCell, hsub]

/-- C1 witness: the amended reporting at the concrete one-row result set. -/
theorem empty_cell_reporting_witness :
    summaryCell [soloWordRow] Lexicality.pseudoword 40 = ⟨some 0, none, 0⟩
    ∧ dashboardCell [soloWordRow] Lexicality.pseudoword 40 = ⟨none, none, 0⟩ :=
  empty_cell_reporting [soloWordRow] Lexicality.pseudoword 40 (by decide)

-- =========================================================================
-- C2 — end-of-session summary vs live dashboard aggregation
-- =========================================================================

/-- A single accurate word trial at 40 ms with a fast reaction time of
0.15 s — below the dashboard's 0.2 s plausibility floor. -/
def fastCorrectRow : ResultRow := ⟨Lexicality.word, 40, 1, some (3/20)⟩

/-- C2 counterexample: on a result set holding one accurate word trial at
40 ms with reaction time 0.15 s, the end-of-session summary reports the
(word, 40 ms) cell with sample size 1 while the live dashboard — which
first discards reaction times outside [0.2 s, 2.0 s] — reports the same
cell with sample size 0: the two consumers do not produce identical
SummaryCells. -/
theorem aggregators_differ :
    summaryCell [fastCorrectRow] Lexicality.word 40 ≠
      dashboardCell [fastCorrectRow] Lexicality.word 40
    ∧ (summaryCell [fastCorrectRow] Lexicality.word 40).n = 1
    ∧ (dashboardCell [fastCorrectRow] Lexicality.word 40).n = 0 := by
  have hclean : cleanFilter fastCorrectRow = false := by
    simp [cleanFilter, fastCorrectRow]
    norm_num
  have hdash : dashboardCell [fastCorrectRow] Lexicality.word 40 = ⟨none, none, 0⟩ := by
    simp [dashboardCell, hclean]
  have hsum : (summaryCell [fastCorrectRow] Lexicality.word 40).n = 1 := by
    simp [summaryCell, fastCorrectRow, stats]
  refine ⟨?_, hsum, by rw [hdash]⟩
  intro h
  rw [h, hdash] at hsum
  exact absurd hsum (by decide)

/-- C2 amended: the two aggregation consumers agree cell-by-cell exactly on
the inputs where their two differences cannot bite — when every result in
the set passes the dashboard's plausibility filter (reaction time populated
and within [0.2 s, 2.0 s]) and the cell has at least one matching result
(the four cells the dashboard computes are those with duration 40 or 200):
then both report the same sample size, the same mean accuracy and the same
mean reaction time over accurate trials.  On other inputs they can diverge
(the summary applies no plausibility filter, and an empty cell's accuracy
is `0` in the summary but `null` in the dashboard). -/
theorem aggregators_agree_on_clean_cells (results : List ResultRow) (lex : Lexicality)
    (dur : Nat)
    (hclean : ∀ r ∈ results, ∃ q, r.RT = some q ∧ 1/5 ≤ q ∧ q ≤ 2)
    (_hdur : dur = 40 ∨ dur = 200)
    (hne : 0 < (results.filter (fun r => r.lexicality == lex && r.duration == dur)).length) :
    summaryCell results lex dur = dashboardCell results lex dur := by
  have hcf : results.filter cleanFilter = results := by
    apply List.filter_eq_self.mpr
    intro r hr
    obtain ⟨q, hq, h1, h2⟩ := hclean r hr
    simp [cleanFilter, hq]
    exact ⟨by linarith, by linarith⟩
  have hmem : ∀ r ∈ results.filter
      (fun r : ResultRow => r.lexicality == lex && r.duration == dur),
      r.RT.isSome = true := by
    intro r hr
    obtain ⟨q, hq, _, _⟩ := hclean r (List.mem_of_mem_filter hr)
    simp [hq]
  have hcorrect : (results.filter
        (fun r : ResultRow => r.lexicality == lex && r.duration == dur)).filter
        (fun r => r.accuracy == 1 && r.RT.isSome) =
      (results.filter
        (fun r : ResultRow => r.lexicality == lex && r.duration == dur)).filter
        (fun r => r.accuracy == 1) := by
    apply List.filter_congr
    intro r hr
    rw [hmem r hr, Bool.and_true]
  rw [summaryCell, stats, dashboardCell, hcf, hcorrect]
  rw [if_neg (Nat.pos_iff_ne_zero.mp hne), if_pos hne]

/-- A single accurate word trial at 40 ms whose reaction time 1.0 s lies
inside the dashboard's plausibility window. -/
def cleanRow : ResultRow := ⟨Lexicality.word, 40, 1, some 1⟩

/-- C2 witness: on an all-clean result set with a nonempty (word, 40 ms)
cell, the two aggregators agree. -/
theorem aggregators_agree_on_clean_cells_witness :
    summaryCell [cleanRow] Lexicality.word 40 = dashboardCell [cleanRow] Lexicality.word 40 :=
  aggregators_agree_on_clean_cells [cleanRow] Lexicality.word 40
    (by
      intro r hr
      rw [List.mem_singleton] at hr
      subst hr
      exact ⟨1, rfl, by norm_num, by norm_num⟩)
    (Or.inl rfl) (by decide)

/-- In a nonincreasingly-sorted-from-the-left (ascending) list, every
element is bounded below by the head. -/
theorem sorted_headD_le (l : List Nat) (hs : List.Sorted (· ≤ ·) l) :
    ∀ d ∈ l, l.headD 0 ≤ d := by
  cases l with
  | nil => intro d hd; cases hd
  | cons a t =>
    intro d hd
    rcases List.mem_cons.mp hd with rfl | hd'
    · exact le_refl _
    · exact List.rel_of_sorted_cons hs d hd'

/-- In an ascending list, every element is bounded above by the last
element. -/
theorem sorted_le_getLastD (l : List Nat) (hs : List.Sorted (· ≤ ·) l) :
    ∀ d ∈ l, d ≤ l.getLastD 0 := by
  induction l with
  | nil => intro d hd; cases hd
  | cons a t ih =>
    intro d hd
    cases t with
    | nil =>
      rcases List.mem_cons.mp hd with rfl | hd'
      · exact le_refl _
      · cases hd'
    | cons b t' =>
      have hlast : (a :: b :: t').getLastD 0 = (b :: t').getLastD 0 := by
        simp [List.getLastD_cons]
      rw [hlast]
      have hst : List.Sorted (· ≤ ·) (b :: t') := (List.sorted_cons.mp hs).2
      rcases List.mem_cons.mp hd with rfl | hd'
      · have hab : d ≤ b := (List.sorted_cons.mp hs).1 b (List.mem_cons_self _ _)
        exact le_trans hab (ih hst b (List.mem_cons_self _ _))
      · exact ih hst d hd'

-- =========================================================================
-- C9 — practice trial generation
-- =========================================================================

/-- C9 counterexample: with the configured duration-level list `[200, 40]`,
the first practice item ("finger", in the first half by catalog order) is
assigned duration 200, even though a strictly shorter duration (40) is
configured — `generatePracticeTrials` assigns `durations[0]`, not the
shortest configured duration.  This refutes the claim for arbitrary
configured duration-level lists. -/
theorem practice_first_half_not_shortest :
    (⟨"finger", Lexicality.word, 200⟩ : TrialSpec0) ∈
      generatePracticeAssigned practiceItems [200, 40]
    ∧ 40 ∈ [200, 40] ∧ ¬(200 : Nat) ≤ 40 := by decide

/-- C9 amended: `generatePracticeTrials` splits the practice catalog into
two halves by catalog order, assigns every item in the first ⌈n/2⌉ the
*first* configured duration (`durations[0]`) and every item in the second
half the *last* configured duration — which are the shortest and the
longest exactly when the configured list is ascending, as the shipped
`[40, 200]` is — and then shuffles (any permutation of the assignment,
element counts preserved) without applying the lexicality-run constraint. -/
theorem generatePracticeTrials_split (items : List (String × Lexicality))
    (durations : List Nat) (shuffled : List TrialSpec0)
    (hperm : shuffled.Perm (generatePracticeAssigned items durations)) :
    (∀ (i : Nat) (item : String × Lexicality), items[i]? = some item →
      (generatePracticeAssigned items durations)[i]? =
        some ⟨item.1, item.2,
          if i < (items.length + 1) / 2 then durations.headD 0 else durations.getLastD 0⟩)
    ∧ (List.Sorted (· ≤ ·) durations → ∀ d ∈ durations,
        durations.headD 0 ≤ d ∧ d ≤ durations.getLastD 0)
    ∧ (∀ t : TrialSpec0, shuffled.count t = (generatePracticeAssigned items durations).count t) := by
  refine ⟨?_, ?_, ?_⟩
  · intro i item hi
    simp [generatePracticeAssigned, List.getElem?_map, List.getElem?_enum, hi]
  · intro hs d hd
    exact ⟨sorted_headD_le durations hs d hd, sorted_le_getLastD durations hs d hd⟩
  · exact hperm.count_eq

/-- C9 witness: with the shipped ascending duration list `[40, 200]`, the
first catalog item gets the shortest duration 40 and the last catalog item
the longest duration 200. -/
theorem generatePracticeTrials_split_witness :
    (generatePracticeAssigned practiceItems configDurations)[0]? =
      some ⟨"finger", Lexicality.word, 40⟩
    ∧ (generatePracticeAssigned practiceItems configDurations)[5]? =
      some ⟨"waten", Lexicality.pseudoword, 200⟩ := by
  have h := generatePracticeTrials_split practiceItems configDurations
    (generatePracticeAssigned practiceItems configDurations) (List.Perm.refl _)
  exact ⟨(h.1 0 ("finger", Lexicality.word) (by decide)).trans (by decide),
    (h.1 5 ("waten", Lexicality.pseudoword) (by decide)).trans (by decide)⟩

/-- Count of trials showing stimulus `s` at duration `d` within one
duration block of the factorial. -/
theorem countP_specsForDuration (words pseudos : List String) (dblock d : Nat) (s : String) :
    (specsForDuration words pseudos dblock).countP
        (fun t => t.stimulus == s && t.duration == d) =
      if dblock = d then words.count s + pseudos.count s else 0 := by
  rw [specsForDuration, List.countP_append, List.countP_map, List.countP_map]
  by_cases h : dblock = d
  · subst h
    rw [if_pos rfl]
    congr 1
    · rw [List.count_eq_countP]
      apply List.countP_congr
      intro w _
      simp [Function.comp]
    · rw [List.count_eq_countP]
      apply List.countP_congr
      intro w _
      simp [Function.comp]
  · rw [if_neg h]
    have hz : ∀ q : List String,
        q.countP (fun w => (w == s) && (dblock == d)) = 0 := by
      intro q
      have : q.countP (fun w => (w == s) && (dblock == d)) =
          q.countP (fun _ => false) := by
        apply List.countP_congr
        intro w _
        simp [beq_iff_eq, h]
      rw [this, List.countP_false]
      rfl
    have h1 : ((fun t : TrialSpec0 => t.stimulus == s && t.duration == d) ∘
        fun w => (⟨w, Lexicality.word, dblock⟩ : TrialSpec0)) =
        fun w => (w == s) && (dblock == d) := by funext w; rfl
    have h2 : ((fun t : TrialSpec0 => t.stimulus == s && t.duration == d) ∘
        fun p => (⟨p, Lexicality.pseudoword, dblock⟩ : TrialSpec0)) =
        fun w => (w == s) && (dblock == d) := by funext w; rfl
    rw [h1, h2, hz, hz]

/-- Count of `(s, d)` trials within the per-repetition block (every
duration's block in order). -/
theorem countP_durationsBlock (words pseudos : List String) (d : Nat) (s : String) :
    ∀ durations : List Nat,
      (durations.flatMap (specsForDuration words pseudos)).countP
          (fun t => t.stimulus == s && t.duration == d) =
        durations.count d * (words.count s + pseudos.count s) := by
  intro durations
  induction durations with
  | nil => simp
  | cons dblock ds ih =>
    rw [List.flatMap_cons, List.countP_append, ih, countP_specsForDuration]
    by_cases h : dblock = d
    · subst h
      rw [if_pos rfl, List.count_cons_self]
      ring
    · rw [if_neg h, List.count_cons_of_ne (fun hc => h hc.symm)]
      ring

/-- Count of `(s, d)` trials in the whole unshuffled factorial. -/
theorem countP_buildTrials (words pseudos : List String) (durations : List Nat)
    (nReps : Nat) (d : Nat) (s : String) :
    (buildTrials words pseudos durations nReps).countP
        (fun t => t.stimulus == s && t.duration == d) =
      nReps * (durations.count d * (words.count s + pseudos.count s)) := by
  rw [buildTrials, List.countP_flatMap]
  have hfun : (List.countP (fun t : TrialSpec0 => t.stimulus == s && t.duration == d) ∘
      fun _ : Nat => durations.flatMap (specsForDuration words pseudos)) =
      fun _ : Nat => durations.count d * (words.count s + pseudos.count s) := by
    funext r
    exact countP_durationsBlock words pseudos d s durations
  rw [hfun, List.map_const', List.sum_replicate, List.length_range, smul_eq_mul]

/-- Length of the whole unshuffled factorial. -/
theorem length_buildTrials (words pseudos : List String) (durations : List Nat)
    (nReps : Nat) :
    (buildTrials words pseudos durations nReps).length =
      nReps * (durations.length * (words.length + pseudos.length)) := by
  rw [buildTrials, List.length_flatMap]
  have hblock : ∀ ds : List Nat,
      (ds.flatMap (specsForDuration words pseudos)).length =
        ds.length * (words.length + pseudos.length) := by
    intro ds
    induction ds with
    | nil => simp
    | cons dblock t ih =>
      rw [List.flatMap_cons, List.length_append, ih]
      have : (specsForDuration words pseudos dblock).length =
          words.length + pseudos.length := by
        simp [specsForDuration]
      rw [this, List.length_cons]
      ring
  have hfun : (List.length ∘ fun _ : Nat =>
      durations.flatMap (specsForDuration words pseudos)) =
      fun _ : Nat => durations.length * (words.length + pseudos.length) := by
    funext r
    exact hblock durations
  rw [hfun, List.map_const', List.sum_replicate, List.length_range, smul_eq_mul]

/-- Stamping trial numbers keeps the list length. -/
theorem assignNumbers_length (l : List TrialSpec0) :
    (assignNumbers l).length = l.length := by
  simp [assignNumbers, List.enum_length]

/-- Stamped trial numbers are exactly `0, 1, 2, …` by final position. -/
theorem assignNumbers_trialNumbers (l : List TrialSpec0) :
    (assignNumbers l).map (·.trialNumber) = List.range l.length := by
  rw [assignNumbers, List.map_map]
  have h : ((fun t : TrialSpec => t.trialNumber) ∘
      fun p : Nat × TrialSpec0 => (⟨p.2, p.1⟩ : TrialSpec)) = Prod.fst := by
    funext p; rfl
  rw [h, List.enum_map_fst]

/-- Stamping trial numbers preserves the `(s, d)` trial counts. -/
theorem assignNumbers_countP_pair (l : List TrialSpec0) (s : String) (d : Nat) :
    (assignNumbers l).countP (fun t => t.stimulus == s && t.duration == d) =
      l.countP (fun t => t.stimulus == s && t.duration == d) := by
  rw [assignNumbers, List.countP_map]
  have h : ((fun t : TrialSpec => t.stimulus == s && t.duration == d) ∘
      fun p : Nat × TrialSpec0 => (⟨p.2, p.1⟩ : TrialSpec)) =
      ((fun t : TrialSpec0 => t.stimulus == s && t.duration == d) ∘ Prod.snd) := by
    funext p; rfl
  rw [h, ← List.countP_map, List.enum_map_snd]

-- =========================================================================
-- C4 — main trial generation is an exact factorial
-- =========================================================================

/-- C4: for word list `words`, pseudoword list `pseudos`, duration levels
`durations` and repetition count `nReps`, and for every outcome of the
random shuffle (any permutation of the factorial list), `generateTrials`
returns exactly `(|words|+|pseudos|) × |durations| × nReps` TrialSpecs in
which every (stimulus, duration) pair from the catalog occurs exactly
`nReps` times, and trial indices are assigned contiguously by final
position (`0, 1, 2, …`).  The Nodup hypotheses record that the catalogs
list distinct stimuli and distinct duration levels, as the shipped
configuration does. -/
theorem generateTrials_factorial (words pseudos : List String) (durations : List Nat)
    (nReps : Nat) (shuffled : List TrialSpec0)
    (hperm : shuffled.Perm (buildTrials words pseudos durations nReps))
    (hnodup : (words ++ pseudos).Nodup)
    (hdnodup : durations.Nodup) :
    (assignNumbers shuffled).length =
      (words.length + pseudos.length) * durations.length * nReps
    ∧ (∀ s ∈ words ++ pseudos, ∀ d ∈ durations,
        (assignNumbers shuffled).countP
          (fun t => t.stimulus == s && t.duration == d) = nReps)
    ∧ (assignNumbers shuffled).map (·.trialNumber) =
        List.range (assignNumbers shuffled).length := by
  refine ⟨?_, ?_, ?_⟩
  · rw [assignNumbers_length, hperm.length_eq, length_buildTrials]
    ring
  · intro s hs d hd
    have hcount1 : words.count s + pseudos.count s = 1 := by
      rw [← List.count_append]
      exact List.count_eq_one_of_mem hnodup hs
    have hcountd : durations.count d = 1 := List.count_eq_one_of_mem hdnodup hd
    rw [assignNumbers_countP_pair,
      hperm.countP_eq (fun t => t.stimulus == s && t.duration == d),
      countP_buildTrials, hcountd, hcount1]
    ring
  · rw [assignNumbers_trialNumbers, assignNumbers_length]

/-- C4 witness: a one-word, one-pseudoword catalog at the two shipped
durations with one repetition yields 4 trials with the ("river", 40 ms)
pair occurring exactly once. -/
theorem generateTrials_factorial_witness :
    (assignNumbers (buildTrials ["river"] ["tible"] [40, 200] 1)).length =
      (1 + 1) * 2 * 1
    ∧ (assignNumbers (buildTrials ["river"] ["tible"] [40, 200] 1)).countP
        (fun t => t.stimulus == "river" && t.duration == 40) = 1 := by
  have h := generateTrials_factorial ["river"] ["tible"] [40, 200] 1
    (buildTrials ["river"] ["tible"] [40, 200] 1) (List.Perm.refl _)
    (by decide) (by decide)
  exact ⟨by rw [h.1]; rfl, h.2.1 "river" (by decide) 40 (by decide)⟩

/-- If a block of `k` copies of `p` followed by anything coincides with a
block of `n` copies of `p` followed by an element different from `p`, then
`k ≤ n`. -/
theorem replicate_run_bound (p x : Lexicality) (hx : x ≠ p) :
    ∀ (k n : Nat) (post rest : List Lexicality),
      List.replicate k p ++ post = List.replicate n p ++ x :: rest → k ≤ n := by
  intro k
  induction k with
  | zero => intro n post rest _; exact Nat.zero_le n
  | succ k ih =>
    intro n post rest h
    cases n with
    | zero =>
      rw [List.replicate_succ, List.replicate] at h
      simp only [List.cons_append, List.nil_append] at h
      injection h with h1 _
      exact absurd h1.symm hx
    | succ n =>
      rw [List.replicate_succ, List.replicate_succ] at h
      simp only [List.cons_append] at h
      injection h with _ htail
      exact Nat.succ_le_succ (ih n post rest htail)

/-- A constant run inside a list made of `n` copies of `p` followed by an
element different from `p` either fits inside the `p` block or lies
entirely beyond it. -/
theorem run_in_block_or_beyond (p x : Lexicality) (hx : x ≠ p) (m : Nat) (c : Lexicality) :
    ∀ (n : Nat) (pre post rest : List Lexicality),
      pre ++ List.replicate m c ++ post = List.replicate n p ++ x :: rest →
      m ≤ n ∨ ∃ pre2 post2, pre2 ++ List.replicate m c ++ post2 = x :: rest := by
  intro n
  induction n with
  | zero =>
    intro pre post rest h
    exact Or.inr ⟨pre, post, by simpa using h⟩
  | succ n ih =>
    intro pre post rest h
    cases pre with
    | nil =>
      simp only [List.nil_append] at h
      cases m with
      | zero => exact Or.inl (Nat.zero_le _)
      | succ k =>
        rw [List.replicate_succ, List.replicate_succ] at h
        simp only [List.cons_append] at h
        injection h with h1 h2
        subst h1
        exact Or.inl (Nat.succ_le_succ (replicate_run_bound c x hx k n post rest h2))
    | cons a pre' =>
      rw [List.replicate_succ] at h
      simp only [List.cons_append] at h
      injection h with h1 h2
      rcases ih pre' post rest h2 with hm | hex
      · exact Or.inl (Nat.le_succ_of_le hm)
      · exact Or.inr hex

/-- Invariant of the `checkLexConstraint` scan: with `count` copies of
`prev` as the current run (`1 ≤ count ≤ K`), the remaining scan accepts iff
the list "current run ++ remaining input" contains no run of `K + 1` equal
entries. -/
theorem checkAux_iff (K : Nat) :
    ∀ (rest : List Lexicality) (prev : Lexicality) (count : Nat),
      1 ≤ count → count ≤ K →
      (checkAux K prev count rest = true ↔
        ¬ containsRun (List.replicate count prev ++ rest) (K + 1)) := by
  intro rest
  induction rest with
  | nil =>
    intro prev count _ hK
    simp only [checkAux, List.append_nil, true_iff]
    intro hrun
    obtain ⟨c, pre, post, heq⟩ := hrun
    have hlen := congrArg List.length heq
    simp [List.length_append, List.length_replicate] at hlen
    omega
  | cons x rest ih =>
    intro prev count h1 hK
    rw [checkAux]
    by_cases hx : x = prev
    · subst hx
      rw [if_pos rfl]
      by_cases hbig : count + 1 > K
      · rw [if_pos hbig]
        have hcount : count = K := by omega
        subst hcount
        constructor
        · intro habs; cases habs
        · intro hnrun
          exfalso
          apply hnrun
          refine ⟨x, [], rest, ?_⟩
          rw [List.nil_append, List.replicate_succ']
          simp [List.append_assoc]
      · rw [if_neg hbig]
        rw [ih x (count + 1) (by omega) (by omega)]
        have hlist : List.replicate count x ++ x :: rest =
            List.replicate (count + 1) x ++ rest := by
          rw [List.replicate_succ']
          simp [List.append_assoc]
        rw [hlist]
    · rw [if_neg hx]
      rw [ih x 1 (le_refl 1) (le_trans h1 hK)]
      have hone : List.replicate 1 x ++ rest = x :: rest := by
        simp [List.replicate]
      rw [hone]
      constructor
      · intro hn hrun
        apply hn
        obtain ⟨c, pre, post, heq⟩ := hrun
        rcases run_in_block_or_beyond prev x hx (K + 1) c count pre post rest heq.symm with
          hm | ⟨pre2, post2, h2⟩
        · omega
        · exact ⟨c, pre2, post2, h2.symm⟩
      · intro hn hrun
        apply hn
        obtain ⟨c, pre, post, heq⟩ := hrun
        exact ⟨c, List.replicate count prev ++ pre, post, by
          rw [heq]
          simp [List.append_assoc]⟩

-- =========================================================================
-- C5 — lexicality-run constraint
-- =========================================================================

/-- C5: for every run cap `K ≥ 1` (the shipped configuration fixes
`K = CONFIG.maxSameLexInRow = 3`): `checkLexConstraint(trials, K)` returns
`true` iff the trial sequence contains no run of more than `K` consecutive
entries of equal lexicality (no `K + 1` consecutive equal entries); and
whenever some shuffle attempt within the retry cap passes validation, the
sequence the retry loop keeps contains no such run. -/
theorem checkLexConstraint_correct (K : Nat) (hK : 1 ≤ K) :
    (∀ l : List Lexicality, checkLexConstraint l K = true ↔ ¬ containsRun l (K + 1))
    ∧ (∀ (attempts : List (List TrialSpec0)) (fallback : List TrialSpec0),
        (∃ a ∈ attempts, checkLexConstraint (a.map (·.lexicality)) K = true) →
        ¬ containsRun ((retryShuffleClean attempts fallback K).map (·.lexicality)) (K + 1)) := by
  have hiff : ∀ l : List Lexicality,
      checkLexConstraint l K = true ↔ ¬ containsRun l (K + 1) := by
    intro l
    cases l with
    | nil =>
      simp only [checkLexConstraint, true_iff]
      intro hrun
      obtain ⟨c, pre, post, heq⟩ := hrun
      have hlen := congrArg List.length heq
      simp [List.length_append, List.length_replicate] at hlen
      omega
    | cons x rest =>
      rw [checkLexConstraint, checkAux_iff K rest x 1 (le_refl 1) hK]
      have hone : List.replicate 1 x ++ rest = x :: rest := by
        simp [List.replicate]
      rw [hone]
  refine ⟨hiff, ?_⟩
  intro attempts
  induction attempts with
  | nil =>
    intro fallback hex
    obtain ⟨a, ha, _⟩ := hex
    cases ha
  | cons a rest ih =>
    intro fallback hex
    rw [retryShuffleClean]
    by_cases hc : checkLexConstraint (a.map (·.lexicality)) K = true
    · rw [if_pos hc]
      exact (hiff _).mp hc
    · rw [if_neg hc]
      apply ih
      obtain ⟨b, hb, hbc⟩ := hex
      rcases List.mem_cons.mp hb with rfl | hb'
      · exact absurd hbc hc
      · exact ⟨b, hb', hbc⟩

/-- C5 witness: at the shipped cap `K = 3`, an alternating sequence passes
the check and hence provably contains no run of more than 3 equal
lexicalities. -/
theorem checkLexConstraint_correct_witness :
    ¬ containsRun
      [Lexicality.word, Lexicality.pseudoword, Lexicality.word, Lexicality.pseudoword]
      (configMaxSameLexInRow + 1) :=
  ((checkLexConstraint_correct configMaxSameLexInRow (by decide)).1 _).mp (by decide)
